import Mathlib

/-!
Shallow embedding of the cache-based group-by aggregation kernel and the
latitudinal-correlation pipeline of the MicrobeAtlas companion notebooks
(Julia source in the repository's cache-based statistics notebook).

Modelling conventions:
* Julia `Float64` values are modelled by an arbitrary `LinearOrderedField α`
  (instantiated at `ℝ` or `ℚ` in theorems); `log10` is an explicit function
  parameter `lg : α → α` (instantiated at `Real.logb 10`), and the external
  `Statistics.cor` black box is an explicit parameter `corFn`.
* A Julia `Vector`/`SparseVector` argument is the inductive `ValVec`:
  `dense l` carries the full list of values; `sparse entries` carries the
  stored (index, value) pairs, in increasing index order, exactly as
  `rowvals`/`nonzeros` expose them.
* Group ids are `Fin G` (the Julia code uses ids in `1..G`; we use `0..G-1`),
  and the group-assignment vector is a total function `ℕ → Fin G` read at
  the sample indices that occur.
* In-place mutation of the cache arrays is explicit state passing on the
  `Caches` structure; a Julia runtime error (`minimum` of an empty
  collection, `MethodError` on a dense argument to the logged method) is
  `Option.none`.
* The Julia `NaN` short-circuit value of `_fast_cor_binned` is encoded by
  `Option.none` in the `cor` field of `CorResult`.
-/

set_option linter.unusedSectionVars false
set_option linter.unusedVariables false
set_option linter.unnecessarySimpa false

namespace MicrobeAtlas

/-- The reusable accumulator buffers of the aggregation kernel: per-group
mean, sum, total group size, and observed (prevalence) count. -/
@[ext]
structure Caches (α : Type) (G : ℕ) where
  mean_cache : Fin G → α
  sum_cache : Fin G → α
  group_count_cache : Fin G → ℕ
  prev_cache : Fin G → ℕ
  deriving DecidableEq

/-- A value vector: either a dense list of all values, or the sparse
representation as the list of stored (index, value) pairs. -/
inductive ValVec (α : Type) where
  | dense (l : List α)
  | sparse (entries : List (ℕ × α))
  deriving DecidableEq

variable {α : Type} [LinearOrderedField α] [DecidableEq α] {G : ℕ}

/-- Julia `all(iszero, val_vec)`: every element of the vector is zero.  For a
sparse vector the implicit zeros are zero, so this is equivalent to every
stored value being zero. -/
def ValVec.allZero : ValVec α → Prop
  | .dense l => ∀ v ∈ l, v = 0
  | .sparse entries => ∀ e ∈ entries, e.2 = 0

instance (v : ValVec α) : Decidable v.allZero :=
  match v with
  | .dense l => List.decidableBAll _ l
  | .sparse entries => List.decidableBAll _ entries

/-- Sum of all values of the vector (implicit zeros of a sparse vector
contribute nothing). -/
def ValVec.totalSum : ValVec α → α
  | .dense l => l.sum
  | .sparse entries => (entries.map Prod.snd).sum

/-- Number of entries the aggregation pass iterates over: every sample for a
dense vector, only the stored entries for a sparse one. -/
def ValVec.numStored : ValVec α → ℕ
  | .dense l => l.length
  | .sparse entries => entries.length

/-- The (index, value) pairs the non-log population pass iterates over:
all positions of a dense vector, the stored entries of a sparse one. -/
def ValVec.pairs : ValVec α → List (ℕ × α)
  | .dense l => l.enum
  | .sparse entries => entries

/-- The well-formedness of the sparse representation of a dense vector:
stored entries are exactly the non-zero positions (in increasing index
order, as `SparseVector` stores them) paired with their values. -/
def IsSparseRep (l : List α) (entries : List (ℕ × α)) : Prop :=
  entries = l.enum.filter fun iv => iv.2 ≠ 0

/-- One loop iteration of the cache-population passes: add `v` to
`sum_cache[g]` and `1` to `prev_cache[g]`. -/
def bump (c : Caches α G) (g : Fin G) (v : α) : Caches α G :=
  { c with
    sum_cache := fun x => if x = g then c.sum_cache g + v else c.sum_cache x
    prev_cache := fun x => if x = g then c.prev_cache g + 1 else c.prev_cache x }

/-- Julia `_populate_caches!(val_vec, group_vec, sum_cache, prev_cache)`
(generic fallback): for every index `i` of the vector, add `val_vec[i]` to
`sum_cache[group_vec[i]]` and increment `prev_cache[group_vec[i]]`. -/
def populate_caches (val_vec : List α) (group_vec : ℕ → Fin G)
    (c : Caches α G) : Caches α G :=
  val_vec.enum.foldl (fun acc iv => bump acc (group_vec iv.1) iv.2) c

/-- Julia `_populate_caches!` (sparse method): iterate only the stored
(index, value) pairs. -/
def populate_caches_sparse (entries : List (ℕ × α)) (group_vec : ℕ → Fin G)
    (c : Caches α G) : Caches α G :=
  entries.foldl (fun acc iv => bump acc (group_vec iv.1) iv.2) c

/-- Julia `_populate_caches_logged!` (sparse only): pseudo-count
`pcount = minimum(vals) / 10`; each stored entry contributes
`log10(val + pcount)`; afterwards, for every group, the implicit zeros
(`group_count_cache[g] - prev_cache[g]` many) contribute
`log10(pcount)` each, added in one step.  `minimum` of an empty stored-value
list is a Julia `ArgumentError`, modelled by `none`. -/
def populate_caches_logged (lg : α → α) (entries : List (ℕ × α))
    (group_vec : ℕ → Fin G) (c : Caches α G) : Option (Caches α G) :=
  match (entries.map Prod.snd).min? with
  | none => none
  | some m =>
    let pcount := m / 10
    let c1 := entries.foldl
      (fun acc iv => bump acc (group_vec iv.1) (lg (iv.2 + pcount))) c
    some { c1 with
      sum_cache := fun g => c1.sum_cache g +
        lg pcount * (((c1.group_count_cache g : ℤ) - (c1.prev_cache g : ℤ) : ℤ) : α) }

/-- Julia `groupby_mean!(val_vec, group_vec, caches; log_vals)`: zero the
mean/sum/prev caches, run the population pass selected by `log_vals` and the
input representation, then set `mean_cache .= sum_cache ./ group_count_cache`.
Calling the logged pass on a dense vector is a Julia `MethodError` (`none`);
the logged pass itself can also fail (empty stored-value list). -/
def groupby_mean (val_vec : ValVec α) (group_vec : ℕ → Fin G)
    (c : Caches α G) (lg : α → α) (log_vals : Bool) : Option (Caches α G) :=
  let c0 : Caches α G :=
    { mean_cache := fun _ => 0
      sum_cache := fun _ => 0
      group_count_cache := c.group_count_cache
      prev_cache := fun _ => 0 }
  let res : Option (Caches α G) :=
    if log_vals then
      match val_vec with
      | .dense _ => none
      | .sparse entries => populate_caches_logged lg entries group_vec c0
    else
      some (match val_vec with
        | .dense l => populate_caches l group_vec c0
        | .sparse entries => populate_caches_sparse entries group_vec c0)
  res.map fun c1 =>
    { c1 with mean_cache := fun g => c1.sum_cache g / (c1.group_count_cache g : α) }

/-- The record returned by `_fast_cor_binned`: correlation statistic
(`none` encodes the Julia `NaN` sentinel of the all-zero short circuit),
number of groups observed, and prevalence. -/
@[ext]
structure CorResult (α : Type) where
  cor : Option α
  n_bins_obs : ℕ
  prev : ℕ
  deriving DecidableEq

/-- The pseudo-count used by `_fast_cor_binned` on the aggregated means:
if some mean is zero, `minimum(mean_cache[.!iszero.(mean_cache)]) / 10`
(a Julia `ArgumentError`, modelled `none`, when every mean is zero);
otherwise `0.0`. -/
def meanPcount (m : Fin G → α) : Option α :=
  if ∃ g, m g = 0 then
    if hs : (Finset.univ.filter fun g => m g ≠ 0).Nonempty then
      some ((Finset.univ.filter fun g => m g ≠ 0).inf' hs m / 10)
    else none
  else some 0

/-- Julia `_fast_cor_binned(val_vec, v2_binned, bins_srt, caches; log_means)`:
all-zero inputs short-circuit to `(NaN, 0, 0)` with the caches untouched;
otherwise aggregate without log transform, count the observed bins, optionally
log-transform the per-group means in place with `meanPcount`, and correlate the
mean vector with the per-bin reference values.  `corFn` is the external
`Statistics.cor` black box and `lg` the `log10` function. -/
def fast_cor_binned (corFn : (Fin G → α) → (Fin G → α) → α) (lg : α → α)
    (val_vec : ValVec α) (v2_binned : ℕ → Fin G) (bins_srt : Fin G → α)
    (c : Caches α G) (log_means : Bool) : Option (CorResult α × Caches α G) :=
  if val_vec.allZero then
    some ({ cor := none, n_bins_obs := 0, prev := 0 }, c)
  else
    match groupby_mean val_vec v2_binned c lg false with
    | none => none
    | some c1 =>
      let n_bins_obs := (Finset.univ.filter fun g => c1.prev_cache g ≠ 0).card
      let step2 : Option (Caches α G) :=
        if log_means then
          (meanPcount c1.mean_cache).map fun p =>
            { c1 with mean_cache := fun g => lg (c1.mean_cache g + p) }
        else some c1
      step2.map fun c2 =>
        ({ cor := some (corFn c2.mean_cache bins_srt)
           n_bins_obs := n_bins_obs
           prev := ∑ g, c2.prev_cache g }, c2)

/-- One row of the per-feature result table of
`compute_latitudinal_abundance_cors`. -/
structure CorRow (α : Type) where
  oid : ℕ
  cor : Option α
  n_bins_obs : ℕ
  prev : ℕ
  n_obs : ℕ
  deriving DecidableEq

/-- The minimum-observed-bins reliability threshold of
`compute_latitudinal_abundance_cors`: `div(n_bins, bins_obs_min_factor)`
(Julia `div` truncates toward zero) unless the factor is the sentinel `-1`,
in which case `0`. -/
def n_bins_obs_min (n_bins : ℕ) (bins_obs_min_factor : ℤ) : ℤ :=
  if bins_obs_min_factor ≠ -1 then Int.tdiv (n_bins : ℤ) bins_obs_min_factor else 0

/-- The per-bin sample counts of `compute_latitudinal_abundance_cors`:
`for bin_ind in lats_binned_indmap: group_count_cache[bin_ind] += 1`. -/
def group_counts (n_samp : ℕ) (grp : ℕ → Fin G) : Fin G → ℕ :=
  (List.range n_samp).foldl
    (fun f i => fun x => if x = grp i then f (grp i) + 1 else f x) fun _ => 0

/-- The unreliability filter mask of `compute_latitudinal_abundance_cors`:
`(cor_df.prev .< prev_min) .| (cor_df.n_bins_obs .< n_bins_obs_min)`. -/
def unreliableRow (prev_min thresh : ℤ) (r : CorRow α) : Prop :=
  (r.prev : ℤ) < prev_min ∨ (r.n_bins_obs : ℤ) < thresh

instance (prev_min thresh : ℤ) (r : CorRow α) :
    Decidable (unreliableRow prev_min thresh r) := by
  unfold unreliableRow; infer_instance

/-- Julia `compute_latitudinal_abundance_cors(otu_matn, lats_binned; prev_min,
bins_obs_min_factor, do_FDR)`, up to and including the reliability filter.
The sorted distinct bins are `Fin G` with reference values `bins_srt`; the
index-mapped bin of sample `i` is `grp i` for `i < n_samp` (the Julia code
builds this map from `lats_binned`; the claims treat it as given).  Per-bin
sample counts are populated by counting, each feature column is processed by
`_fast_cor_binned` (with its default `log_means = true`) reusing the one cache
object, and the rows are split by the filter mask into the main table
(`test_df`, first component) and the excluded table (`unrel_df`, second
component).  The downstream p-value columns are external black boxes and do
not change row membership, so they are not modelled. -/
def compute_latitudinal_abundance_cors
    (corFn : (Fin G → α) → (Fin G → α) → α) (lg : α → α)
    (otu_cols : List (ℕ × ValVec α)) (n_samp : ℕ) (grp : ℕ → Fin G)
    (bins_srt : Fin G → α) (prev_min : ℤ) (bins_obs_min_factor : ℤ) :
    Option (List (CorRow α) × List (CorRow α)) :=
  let n_bins := G
  let thresh := n_bins_obs_min n_bins bins_obs_min_factor
  let gcount : Fin G → ℕ := group_counts n_samp grp
  let c0 : Caches α G :=
    { mean_cache := fun _ => 0
      sum_cache := fun _ => 0
      group_count_cache := gcount
      prev_cache := fun _ => 0 }
  let folded : Option (List (CorRow α) × Caches α G) :=
    otu_cols.foldl
      (fun acc col =>
        match acc with
        | none => none
        | some (rows, c) =>
          match fast_cor_binned corFn lg col.2 grp bins_srt c true with
          | none => none
          | some (r, c') =>
            some (rows ++ [{ oid := col.1, cor := r.cor,
                             n_bins_obs := r.n_bins_obs, prev := r.prev,
                             n_obs := n_bins }], c'))
      (some ([], c0))
  folded.map fun rc =>
    let rm := rc.1.filter fun r => decide (unreliableRow prev_min thresh r)
    let keep := rc.1.filter fun r => ! decide (unreliableRow prev_min thresh r)
    (keep, rm)

/-! ### Characterization of the cache-population folds -/

lemma bump_mean (c : Caches α G) (g : Fin G) (v : α) :
    (bump c g v).mean_cache = c.mean_cache := rfl

lemma bump_gcount (c : Caches α G) (g : Fin G) (v : α) :
    (bump c g v).group_count_cache = c.group_count_cache := rfl

lemma foldl_bump_mean (f : ℕ × α → α) (grp : ℕ → Fin G) (L : List (ℕ × α)) :
    ∀ c : Caches α G,
      (L.foldl (fun acc e => bump acc (grp e.1) (f e)) c).mean_cache = c.mean_cache := by
  induction L with
  | nil => intro c; rfl
  | cons e t ih => intro c; rw [List.foldl_cons, ih]; rfl

lemma foldl_bump_gcount (f : ℕ × α → α) (grp : ℕ → Fin G) (L : List (ℕ × α)) :
    ∀ c : Caches α G,
      (L.foldl (fun acc e => bump acc (grp e.1) (f e)) c).group_count_cache
        = c.group_count_cache := by
  induction L with
  | nil => intro c; rfl
  | cons e t ih => intro c; rw [List.foldl_cons, ih]; rfl

lemma foldl_bump_sum (f : ℕ × α → α) (grp : ℕ → Fin G) (L : List (ℕ × α)) :
    ∀ (c : Caches α G) (g : Fin G),
      (L.foldl (fun acc e => bump acc (grp e.1) (f e)) c).sum_cache g
        = c.sum_cache g + ((L.filter fun e => decide (grp e.1 = g)).map f).sum := by
  induction L with
  | nil => intro c g; simp
  | cons e t ih =>
      intro c g
      rw [List.foldl_cons, ih]
      by_cases h : grp e.1 = g
      · simp [bump, h, List.filter_cons]
        ring
      · simp [bump, h, List.filter_cons, Ne.symm h]

lemma foldl_bump_prev (f : ℕ × α → α) (grp : ℕ → Fin G) (L : List (ℕ × α)) :
    ∀ (c : Caches α G) (g : Fin G),
      (L.foldl (fun acc e => bump acc (grp e.1) (f e)) c).prev_cache g
        = c.prev_cache g + (L.filter fun e => decide (grp e.1 = g)).length := by
  induction L with
  | nil => intro c g; simp
  | cons e t ih =>
      intro c g
      rw [List.foldl_cons, ih]
      by_cases h : grp e.1 = g
      · simp [bump, h, List.filter_cons]
        ring
      · simp [bump, h, List.filter_cons, Ne.symm h]

lemma sum_filter_groups (f : ℕ × α → α) (grp : ℕ → Fin G) (L : List (ℕ × α)) :
    ∑ g : Fin G, ((L.filter fun e => decide (grp e.1 = g)).map f).sum
      = (L.map f).sum := by
  induction L with
  | nil => simp
  | cons e t ih =>
      have step : ∀ g : Fin G,
          (((e :: t).filter fun x => decide (grp x.1 = g)).map f).sum
            = ((t.filter fun x => decide (grp x.1 = g)).map f).sum
              + (if grp e.1 = g then f e else 0) := by
        intro g
        by_cases h : grp e.1 = g
        · simp [List.filter_cons, h]; ring
        · simp [List.filter_cons, h]
      rw [Finset.sum_congr rfl fun g _ => step g, Finset.sum_add_distrib, ih,
        Finset.sum_ite_eq]
      simp [List.map_cons]
      ring

lemma length_filter_groups (grp : ℕ → Fin G) (L : List (ℕ × α)) :
    ∑ g : Fin G, (L.filter fun e => decide (grp e.1 = g)).length = L.length := by
  induction L with
  | nil => simp
  | cons e t ih =>
      have step : ∀ g : Fin G,
          ((e :: t).filter fun x => decide (grp x.1 = g)).length
            = (t.filter fun x => decide (grp x.1 = g)).length
              + (if grp e.1 = g then 1 else 0) := by
        intro g
        by_cases h : grp e.1 = g
        · simp [List.filter_cons, h]
        · simp [List.filter_cons, h]
      rw [Finset.sum_congr rfl fun g _ => step g, Finset.sum_add_distrib, ih,
        Finset.sum_ite_eq]
      simp

/-! ### Characterization of `groupby_mean` -/

lemma groupby_mean_nonlog_sparse (entries : List (ℕ × α)) (grp : ℕ → Fin G)
    (c : Caches α G) (lg : α → α) :
    groupby_mean (ValVec.sparse entries) grp c lg false = some
      { mean_cache := fun g =>
          ((entries.filter fun e => decide (grp e.1 = g)).map Prod.snd).sum
            / (c.group_count_cache g : α)
        sum_cache := fun g =>
          ((entries.filter fun e => decide (grp e.1 = g)).map Prod.snd).sum
        group_count_cache := c.group_count_cache
        prev_cache := fun g =>
          (entries.filter fun e => decide (grp e.1 = g)).length } := by
  have hres : populate_caches_sparse entries grp
      ({ mean_cache := fun _ => 0, sum_cache := fun _ => 0,
         group_count_cache := c.group_count_cache,
         prev_cache := fun _ => 0 } : Caches α G)
      = { mean_cache := fun _ => 0
          sum_cache := fun g =>
            ((entries.filter fun e => decide (grp e.1 = g)).map Prod.snd).sum
          group_count_cache := c.group_count_cache
          prev_cache := fun g =>
            (entries.filter fun e => decide (grp e.1 = g)).length } := by
    apply Caches.ext
    · exact foldl_bump_mean Prod.snd grp entries _
    · funext g
      exact (foldl_bump_sum Prod.snd grp entries _ g).trans (zero_add _)
    · exact foldl_bump_gcount Prod.snd grp entries _
    · funext g
      exact (foldl_bump_prev Prod.snd grp entries _ g).trans (zero_add _)
  unfold groupby_mean
  simp only [hres]
  rfl

lemma groupby_mean_nonlog_eq (v : ValVec α) (grp : ℕ → Fin G)
    (c : Caches α G) (lg : α → α) :
    groupby_mean v grp c lg false = some
      { mean_cache := fun g =>
          ((v.pairs.filter fun e => decide (grp e.1 = g)).map Prod.snd).sum
            / (c.group_count_cache g : α)
        sum_cache := fun g =>
          ((v.pairs.filter fun e => decide (grp e.1 = g)).map Prod.snd).sum
        group_count_cache := c.group_count_cache
        prev_cache := fun g =>
          (v.pairs.filter fun e => decide (grp e.1 = g)).length } := by
  cases v with
  | dense l => exact groupby_mean_nonlog_sparse l.enum grp c lg
  | sparse entries => exact groupby_mean_nonlog_sparse entries grp c lg

lemma populate_caches_logged_eq (lg : α → α) (entries : List (ℕ × α))
    (grp : ℕ → Fin G) (c : Caches α G) (m : α)
    (hm : (entries.map Prod.snd).min? = some m) :
    populate_caches_logged lg entries grp c = some
      { mean_cache := c.mean_cache
        sum_cache := fun g =>
          (c.sum_cache g
            + ((entries.filter fun e => decide (grp e.1 = g)).map
                fun e => lg (e.2 + m / 10)).sum)
            + lg (m / 10)
              * (((c.group_count_cache g : ℤ)
                  - ((c.prev_cache g
                      + (entries.filter fun e => decide (grp e.1 = g)).length : ℕ) : ℤ)
                  : ℤ) : α)
        group_count_cache := c.group_count_cache
        prev_cache := fun g =>
          c.prev_cache g + (entries.filter fun e => decide (grp e.1 = g)).length } := by
  have hs := foldl_bump_sum (fun e => lg (e.2 + m / 10)) grp entries
  have hp := foldl_bump_prev (fun e => lg (e.2 + m / 10)) grp entries
  have hg := foldl_bump_gcount (fun e => lg (e.2 + m / 10)) grp entries
  have hme := foldl_bump_mean (fun e => lg (e.2 + m / 10)) grp entries
  unfold populate_caches_logged
  rw [hm]
  simp only [Option.some.injEq]
  apply Caches.ext
  · exact hme c
  · funext g
    simp only [hs, hp, hg]
  · exact hg c
  · funext g
    simp only [hp]

lemma groupby_mean_log_eq (entries : List (ℕ × α)) (grp : ℕ → Fin G)
    (c : Caches α G) (lg : α → α) (m : α)
    (hm : (entries.map Prod.snd).min? = some m) :
    groupby_mean (ValVec.sparse entries) grp c lg true = some
      { mean_cache := fun g =>
          (((entries.filter fun e => decide (grp e.1 = g)).map
              fun e => lg (e.2 + m / 10)).sum
            + lg (m / 10)
              * (((c.group_count_cache g : ℤ)
                  - ((entries.filter fun e => decide (grp e.1 = g)).length : ℤ) : ℤ) : α))
            / (c.group_count_cache g : α)
        sum_cache := fun g =>
          ((entries.filter fun e => decide (grp e.1 = g)).map
              fun e => lg (e.2 + m / 10)).sum
            + lg (m / 10)
              * (((c.group_count_cache g : ℤ)
                  - ((entries.filter fun e => decide (grp e.1 = g)).length : ℤ) : ℤ) : α)
        group_count_cache := c.group_count_cache
        prev_cache := fun g =>
          (entries.filter fun e => decide (grp e.1 = g)).length } := by
  have h0 := populate_caches_logged_eq lg entries grp
    ({ mean_cache := fun _ => 0, sum_cache := fun _ => 0,
       group_count_cache := c.group_count_cache,
       prev_cache := fun _ => 0 } : Caches α G) m hm
  unfold groupby_mean
  simp only [h0, eq_self_iff_true, if_true, Option.map_some', Option.some.injEq]
  apply Caches.ext <;> funext g <;> simp

lemma groupby_mean_log_empty (grp : ℕ → Fin G) (c : Caches α G) (lg : α → α) :
    groupby_mean (ValVec.sparse ([] : List (ℕ × α))) grp c lg true = none := rfl

lemma groupby_mean_log_dense (l : List α) (grp : ℕ → Fin G) (c : Caches α G)
    (lg : α → α) :
    groupby_mean (ValVec.dense l) grp c lg true = none := rfl

lemma groupby_mean_congr (v : ValVec α) (grp : ℕ → Fin G) (lg : α → α) (lv : Bool)
    {c c' : Caches α G} (h : c.group_count_cache = c'.group_count_cache) :
    groupby_mean v grp c lg lv = groupby_mean v grp c' lg lv := by
  unfold groupby_mean
  rw [h]

lemma groupby_mean_gcount_eq {v : ValVec α} {grp : ℕ → Fin G} {c : Caches α G}
    {lg : α → α} {lv : Bool} {c₁ : Caches α G}
    (h : groupby_mean v grp c lg lv = some c₁) :
    c₁.group_count_cache = c.group_count_cache := by
  cases lv with
  | false =>
      rw [groupby_mean_nonlog_eq] at h
      rw [← Option.some.inj h]
  | true =>
      cases v with
      | dense l => simp [groupby_mean_log_dense] at h
      | sparse entries =>
          cases hm : (entries.map Prod.snd).min? with
          | none =>
              have hnone : groupby_mean (ValVec.sparse entries) grp c lg true = none := by
                unfold groupby_mean populate_caches_logged
                simp only [hm]
                rfl
              rw [hnone] at h
              exact absurd h (by simp)
          | some m =>
              rw [groupby_mean_log_eq entries grp c lg m hm] at h
              rw [← Option.some.inj h]

/-! ### Further support lemmas -/

lemma min?_spec {L : List α} {m : α} (hm : L.min? = some m) :
    m ∈ L ∧ ∀ b ∈ L, m ≤ b :=
  (@List.min?_eq_some_iff α m _ _ ⟨fun h h' => le_antisymm h h'⟩ (fun a => le_refl a)
    (fun a b => min_choice a b) (fun _ _ _ => le_min_iff)).mp hm

lemma valvec_pairs_snd_sum (v : ValVec α) :
    (v.pairs.map Prod.snd).sum = v.totalSum := by
  cases v with
  | dense l => show (l.enum.map Prod.snd).sum = l.sum; rw [List.enum_map_snd]
  | sparse entries => rfl

lemma sum_filter_erase_zeros (grp : ℕ → Fin G) (g : Fin G) (L : List (ℕ × α)) :
    ((L.filter fun e => decide (grp e.1 = g)).map Prod.snd).sum
      = (((L.filter fun e => decide (e.2 ≠ 0)).filter
          fun e => decide (grp e.1 = g)).map Prod.snd).sum := by
  induction L with
  | nil => rfl
  | cons e t ih =>
      by_cases hz : e.2 = 0 <;> by_cases hg : grp e.1 = g <;>
        simp [List.filter_cons, hz, hg, ih]

/-! ### Claim theorems -/

/-- C2: after a completed non-log `groupby_mean!` call in which every group has
positive group size, `mean[g] = sum[g] / group_size[g]` holds for every group
`g`, and consequently the total of `mean[g] * group_size[g]` over all groups
equals the sum of all input values. -/
theorem groupby_mean_mass_conservation (v : ValVec α) (grp : ℕ → Fin G)
    (c : Caches α G) (lg : α → α) (c₁ : Caches α G)
    (hpos : ∀ g, 0 < c.group_count_cache g)
    (h : groupby_mean v grp c lg false = some c₁) :
    (∀ g, c₁.mean_cache g = c₁.sum_cache g / (c₁.group_count_cache g : α))
      ∧ ∑ g, c₁.mean_cache g * (c₁.group_count_cache g : α) = v.totalSum := by
  rw [groupby_mean_nonlog_eq] at h
  obtain rfl := (Option.some.inj h).symm
  refine ⟨fun g => rfl, ?_⟩
  show ∑ g : Fin G,
      (((v.pairs.filter fun e => decide (grp e.1 = g)).map Prod.snd).sum
        / (c.group_count_cache g : α)) * (c.group_count_cache g : α)
    = v.totalSum
  have hmul : ∀ g : Fin G,
      (((v.pairs.filter fun e => decide (grp e.1 = g)).map Prod.snd).sum
        / (c.group_count_cache g : α)) * (c.group_count_cache g : α)
      = ((v.pairs.filter fun e => decide (grp e.1 = g)).map Prod.snd).sum :=
    fun g => div_mul_cancel₀ _ (Nat.cast_ne_zero.mpr (hpos g).ne')
  rw [Finset.sum_congr rfl fun g _ => hmul g, sum_filter_groups Prod.snd grp v.pairs,
    valvec_pairs_snd_sum]

/-- Witness for C2 at the dense vector `[1, 2]`, one group of size 2:
mean `3/2`, and `3/2 * 2` recovers the total input sum `3`. -/
theorem groupby_mean_mass_conservation_witness :
    ((0 : ℕ) < 2) ∧ (3 / 2 : ℚ) = 3 / ((2 : ℕ) : ℚ)
      ∧ (3 / 2 : ℚ) * ((2 : ℕ) : ℚ) = (3 : ℚ) := by
  have hrun : groupby_mean (ValVec.dense [(1 : ℚ), 2]) (fun _ => (0 : Fin 1))
      (⟨fun _ => 0, fun _ => 0, fun _ => 2, fun _ => 0⟩ : Caches ℚ 1) id false
      = some ⟨fun _ => 3 / 2, fun _ => 3, fun _ => 2, fun _ => 2⟩ := by
    rw [groupby_mean_nonlog_eq]
    apply congrArg some
    apply Caches.ext <;> funext g <;> obtain rfl := Fin.eq_zero g <;>
      norm_num [ValVec.pairs, List.enum, List.enumFrom, List.filter]
  have h := groupby_mean_mass_conservation (ValVec.dense [(1 : ℚ), 2])
    (fun _ => (0 : Fin 1)) ⟨fun _ => 0, fun _ => 0, fun _ => 2, fun _ => 0⟩ id
    ⟨fun _ => 3 / 2, fun _ => 3, fun _ => 2, fun _ => 2⟩
    (fun g => by norm_num) hrun
  refine ⟨by norm_num, by simpa using h.1 0, ?_⟩
  have h2 := h.2
  simpa [ValVec.totalSum, Fin.sum_univ_one] using h2

/-- C4: on an all-zero value vector, `_fast_cor_binned` short-circuits to the
record `(cor = NaN, n_bins_obs = 0, prev = 0)` (the `NaN` sentinel is `none`)
and returns the caches entirely unchanged. -/
theorem fast_cor_binned_allZero_shortcircuit
    (corFn : (Fin G → α) → (Fin G → α) → α) (lg : α → α) (v : ValVec α)
    (grp : ℕ → Fin G) (bins : Fin G → α) (c : Caches α G) (lm : Bool)
    (h : v.allZero) :
    fast_cor_binned corFn lg v grp bins c lm
      = some ({ cor := none, n_bins_obs := 0, prev := 0 }, c) := by
  unfold fast_cor_binned
  exact if_pos h

/-- Witness for C4 at the all-zero dense vector `[0, 0]` with non-trivial
prior cache state, showing the cache state comes back unchanged. -/
theorem fast_cor_binned_allZero_shortcircuit_witness :
    ValVec.allZero (ValVec.dense [(0 : ℚ), 0])
      ∧ fast_cor_binned (fun _ _ => (0 : ℚ)) id (ValVec.dense [(0 : ℚ), 0])
          (fun _ => (0 : Fin 1)) (fun _ => 0)
          ⟨fun _ => 1, fun _ => 2, fun _ => 3, fun _ => 4⟩ true
        = some ({ cor := none, n_bins_obs := 0, prev := 0 },
            ⟨fun _ => 1, fun _ => 2, fun _ => 3, fun _ => 4⟩) :=
  ⟨by simp [ValVec.allZero],
    fast_cor_binned_allZero_shortcircuit _ id _ _ _ _ true (by simp [ValVec.allZero])⟩

/-- C5: the logged aggregation path on a sparse vector that stores only
non-zero entries and contains no non-zero value at all (hence stores nothing)
fails — `minimum` of the empty stored-value collection — instead of completing;
the failure is `none`, the model of the Julia `ArgumentError`. -/
theorem groupby_mean_log_empty_fails (entries : List (ℕ × α)) (grp : ℕ → Fin G)
    (c : Caches α G) (lg : α → α)
    (hall : (ValVec.sparse entries).allZero)
    (hwf : ∀ e ∈ entries, e.2 ≠ 0) :
    groupby_mean (ValVec.sparse entries) grp c lg true = none := by
  obtain rfl : entries = [] := by
    cases entries with
    | nil => rfl
    | cons e t => exact absurd (hall e (List.mem_cons_self e t)) (hwf e (List.mem_cons_self e t))
  rfl

/-- Witness for C5 at the empty sparse vector. -/
theorem groupby_mean_log_empty_fails_witness :
    ValVec.allZero (ValVec.sparse ([] : List (ℕ × ℚ)))
      ∧ groupby_mean (ValVec.sparse ([] : List (ℕ × ℚ))) (fun _ => (0 : Fin 1))
          ⟨fun _ => 0, fun _ => 0, fun _ => 1, fun _ => 0⟩ id true = none :=
  ⟨by simp [ValVec.allZero],
    groupby_mean_log_empty_fails [] _ _ id (by simp [ValVec.allZero]) (by simp)⟩

/-- C8: `groupby_mean!` zeroes the sum/count/mean accumulators on entry and
never modifies the group-size totals, so a completed call leaves the group
sizes unchanged, and running the very same call again on the resulting cache
state returns exactly the same cache state. -/
theorem groupby_mean_idempotent (v : ValVec α) (grp : ℕ → Fin G) (c : Caches α G)
    (lg : α → α) (lv : Bool) (c₁ : Caches α G)
    (h : groupby_mean v grp c lg lv = some c₁) :
    c₁.group_count_cache = c.group_count_cache
      ∧ groupby_mean v grp c₁ lg lv = some c₁ := by
  have hg := groupby_mean_gcount_eq h
  exact ⟨hg, (groupby_mean_congr v grp lg lv hg).trans h⟩

/-- Witness for C8: re-running the aggregation of `[1, 2]` on its own output
cache reproduces that output exactly. -/
theorem groupby_mean_idempotent_witness :
    (⟨fun _ => 3 / 2, fun _ => 3, fun _ => 2, fun _ => 2⟩ : Caches ℚ 1).group_count_cache
        = (⟨fun _ => 0, fun _ => 0, fun _ => 2, fun _ => 0⟩ : Caches ℚ 1).group_count_cache
      ∧ groupby_mean (ValVec.dense [(1 : ℚ), 2]) (fun _ => (0 : Fin 1))
          ⟨fun _ => 3 / 2, fun _ => 3, fun _ => 2, fun _ => 2⟩ id false
        = some ⟨fun _ => 3 / 2, fun _ => 3, fun _ => 2, fun _ => 2⟩ :=
  groupby_mean_idempotent (ValVec.dense [(1 : ℚ), 2]) (fun _ => (0 : Fin 1))
    ⟨fun _ => 0, fun _ => 0, fun _ => 2, fun _ => 0⟩ id false
    ⟨fun _ => 3 / 2, fun _ => 3, fun _ => 2, fun _ => 2⟩ (by
      rw [groupby_mean_nonlog_eq]
      apply congrArg some
      apply Caches.ext <;> funext g <;> obtain rfl := Fin.eq_zero g <;>
        norm_num [ValVec.pairs, List.enum, List.enumFrom, List.filter])

/-- C3 fails as stated: for the dense vector `[1, 0]` and its exact sparse
representation `[(0, 1)]` in a single group of size 2, the non-log aggregation
gives count (prevalence) `2` on the dense path but `1` on the sparse path, so
the count arrays are not identical. -/
theorem sparse_dense_count_counterexample :
    IsSparseRep [(1 : ℚ), 0] [((0 : ℕ), (1 : ℚ))]
      ∧ (groupby_mean (ValVec.dense [(1 : ℚ), 0]) (fun _ => (0 : Fin 1))
            ⟨fun _ => 0, fun _ => 0, fun _ => 2, fun _ => 0⟩ id false).map Caches.prev_cache
          ≠ (groupby_mean (ValVec.sparse [((0 : ℕ), (1 : ℚ))]) (fun _ => (0 : Fin 1))
            ⟨fun _ => 0, fun _ => 0, fun _ => 2, fun _ => 0⟩ id false).map Caches.prev_cache := by
  constructor
  · unfold IsSparseRep
    norm_num [List.enum, List.enumFrom, List.filter]
  · intro hcontra
    rw [groupby_mean_nonlog_eq, groupby_mean_nonlog_eq] at hcontra
    simp only [Option.map_some'] at hcontra
    have h0 := congrFun (Option.some.inj hcontra) 0
    norm_num [ValVec.pairs, List.enum, List.enumFrom, List.filter] at h0

/-- C3 (amended): for a dense vector and its exact sparse representation, the
non-log aggregation produces identical sum and mean arrays, and identical
group-size arrays; the count (prevalence) arrays agree whenever the dense
vector contains no zero entry, but in general the dense path counts every
sample while the sparse path counts only stored non-zeros. -/
theorem sparse_dense_agree (l : List α) (entries : List (ℕ × α))
    (grp : ℕ → Fin G) (c : Caches α G) (lg : α → α) (cd cs : Caches α G)
    (hrep : IsSparseRep l entries)
    (hd : groupby_mean (ValVec.dense l) grp c lg false = some cd)
    (hs : groupby_mean (ValVec.sparse entries) grp c lg false = some cs) :
    cd.sum_cache = cs.sum_cache ∧ cd.mean_cache = cs.mean_cache
      ∧ cd.group_count_cache = cs.group_count_cache
      ∧ ((∀ x ∈ l, x ≠ 0) → cd.prev_cache = cs.prev_cache) := by
  rw [groupby_mean_nonlog_eq] at hd hs
  obtain rfl := (Option.some.inj hd).symm
  obtain rfl := (Option.some.inj hs).symm
  unfold IsSparseRep at hrep
  subst hrep
  have hpairs : ValVec.pairs (ValVec.dense l) = l.enum := rfl
  refine ⟨?_, ?_, rfl, ?_⟩
  · funext g
    exact sum_filter_erase_zeros grp g l.enum
  · funext g
    simp only [ValVec.pairs]
    rw [sum_filter_erase_zeros grp g l.enum]
  · intro hnz
    have hfe : l.enum.filter (fun e => decide (e.2 ≠ 0)) = l.enum := by
      apply List.filter_eq_self.mpr
      intro e he
      simpa using hnz e.2 (List.snd_mem_of_mem_enum he)
    funext g
    show (l.enum.filter fun e => decide (grp e.1 = g)).length
      = ((l.enum.filter (fun e => decide (e.2 ≠ 0))).filter
          fun e => decide (grp e.1 = g)).length
    rw [hfe]

/-- Witness for C3 (amended) at the dense vector `[1, 0]` and its sparse
representation `[(0, 1)]`: sum, mean and group-size arrays agree. -/
theorem sparse_dense_agree_witness :
    IsSparseRep [(1 : ℚ), 0] [((0 : ℕ), (1 : ℚ))]
      ∧ (⟨fun _ => 1 / 2, fun _ => 1, fun _ => 2, fun _ => 2⟩ : Caches ℚ 1).sum_cache
          = (⟨fun _ => 1 / 2, fun _ => 1, fun _ => 2, fun _ => 1⟩ : Caches ℚ 1).sum_cache
      ∧ (⟨fun _ => 1 / 2, fun _ => 1, fun _ => 2, fun _ => 2⟩ : Caches ℚ 1).mean_cache
          = (⟨fun _ => 1 / 2, fun _ => 1, fun _ => 2, fun _ => 1⟩ : Caches ℚ 1).mean_cache := by
  have h := sparse_dense_agree [(1 : ℚ), 0] [((0 : ℕ), (1 : ℚ))]
    (fun _ => (0 : Fin 1)) ⟨fun _ => 0, fun _ => 0, fun _ => 2, fun _ => 0⟩ id
    ⟨fun _ => 1 / 2, fun _ => 1, fun _ => 2, fun _ => 2⟩
    ⟨fun _ => 1 / 2, fun _ => 1, fun _ => 2, fun _ => 1⟩
    (by unfold IsSparseRep; norm_num [List.enum, List.enumFrom, List.filter])
    (by
      rw [groupby_mean_nonlog_eq]
      apply congrArg some
      apply Caches.ext <;> funext g <;> obtain rfl := Fin.eq_zero g <;>
        norm_num [ValVec.pairs, List.enum, List.enumFrom, List.filter])
    (by
      rw [groupby_mean_nonlog_eq]
      apply congrArg some
      apply Caches.ext <;> funext g <;> obtain rfl := Fin.eq_zero g <;>
        norm_num [ValVec.pairs, List.enum, List.enumFrom, List.filter])
  exact ⟨by unfold IsSparseRep; norm_num [List.enum, List.enumFrom, List.filter],
    h.1, h.2.1⟩

lemma valvec_pairs_length (v : ValVec α) : v.pairs.length = v.numStored := by
  cases v with
  | dense l => exact List.enum_length
  | sparse entries => rfl

lemma fast_cor_binned_nonlog_eq (corFn : (Fin G → α) → (Fin G → α) → α)
    (lg : α → α) (v : ValVec α) (grp : ℕ → Fin G) (bins : Fin G → α)
    (c c₁ : Caches α G) (hnz : ¬ v.allZero)
    (h1 : groupby_mean v grp c lg false = some c₁) :
    fast_cor_binned corFn lg v grp bins c false = some
      ({ cor := some (corFn c₁.mean_cache bins)
         n_bins_obs := (Finset.univ.filter fun g => c₁.prev_cache g ≠ 0).card
         prev := ∑ g, c₁.prev_cache g }, c₁) := by
  unfold fast_cor_binned
  rw [if_neg hnz, h1]
  rfl

lemma fast_cor_binned_log_eq (corFn : (Fin G → α) → (Fin G → α) → α)
    (lg : α → α) (v : ValVec α) (grp : ℕ → Fin G) (bins : Fin G → α)
    (c c₁ : Caches α G) (p : α) (hnz : ¬ v.allZero)
    (h1 : groupby_mean v grp c lg false = some c₁)
    (hp : meanPcount c₁.mean_cache = some p) :
    fast_cor_binned corFn lg v grp bins c true = some
      ({ cor := some (corFn (fun g => lg (c₁.mean_cache g + p)) bins)
         n_bins_obs := (Finset.univ.filter fun g => c₁.prev_cache g ≠ 0).card
         prev := ∑ g, c₁.prev_cache g },
       { c₁ with mean_cache := fun g => lg (c₁.mean_cache g + p) }) := by
  unfold fast_cor_binned
  rw [if_neg hnz, h1]
  simp only [hp, eq_self_iff_true, if_true, Option.map_some']

lemma fast_cor_binned_log_fail (corFn : (Fin G → α) → (Fin G → α) → α)
    (lg : α → α) (v : ValVec α) (grp : ℕ → Fin G) (bins : Fin G → α)
    (c c₁ : Caches α G) (hnz : ¬ v.allZero)
    (h1 : groupby_mean v grp c lg false = some c₁)
    (hp : meanPcount c₁.mean_cache = none) :
    fast_cor_binned corFn lg v grp bins c true = none := by
  unfold fast_cor_binned
  rw [if_neg hnz, h1]
  simp only [hp, eq_self_iff_true, if_true, Option.map_none']

/-- C1: on a sparse vector whose stored entries are exactly the non-zero
values present, with at least one stored entry, the logged aggregation path
uses pseudo-count `p = (minimum stored value) / 10` (the minimum non-zero
value present over ten): each stored sample adds `log10(value + p)` to its
group's sum, and then each group `g` receives `log10(p) * (group_size[g] -
count[g])` for its implicit zeros in one step, `count[g]` being the number of
stored entries of group `g`. -/
theorem groupby_mean_log_pseudocount (entries : List (ℕ × α)) (grp : ℕ → Fin G)
    (c : Caches α G) (lg : α → α) (m : α)
    (hwf : ∀ e ∈ entries, e.2 ≠ 0)
    (hm : (entries.map Prod.snd).min? = some m) :
    (m ∈ entries.map Prod.snd ∧ ∀ b ∈ entries.map Prod.snd, m ≤ b)
      ∧ ∀ g, (groupby_mean (ValVec.sparse entries) grp c lg true).map
            (fun c₁ => c₁.sum_cache g)
          = some ((((entries.filter fun e => decide (grp e.1 = g)).map
                fun e => lg (e.2 + m / 10)).sum)
              + lg (m / 10)
                * (((c.group_count_cache g : ℤ)
                    - ((entries.filter fun e => decide (grp e.1 = g)).length : ℤ)
                    : ℤ) : α)) := by
  refine ⟨min?_spec hm, fun g => ?_⟩
  rw [groupby_mean_log_eq entries grp c lg m hm]
  rfl

/-- Witness for C1, the pseudo-count law of the specification: the vector
`[0, 0, 4, 0]` (sparse entries `[(2, 4)]`) in one group of total size 4 gives
`p = 4/10` and group sum `log10(4 + 4/10) + 3 * log10(4/10)`. -/
theorem groupby_mean_log_pseudocount_witness :
    (groupby_mean (ValVec.sparse [((2 : ℕ), (4 : ℝ))]) (fun _ => (0 : Fin 1))
        ⟨fun _ => 0, fun _ => 0, fun _ => 4, fun _ => 0⟩ (Real.logb 10) true).map
        (fun c₁ => c₁.sum_cache 0)
      = some (Real.logb 10 (4 + 4 / 10) + 3 * Real.logb 10 (4 / 10)) := by
  have h := (groupby_mean_log_pseudocount [((2 : ℕ), (4 : ℝ))] (fun _ => (0 : Fin 1))
    ⟨fun _ => 0, fun _ => 0, fun _ => 4, fun _ => 0⟩ (Real.logb 10) 4
    (by norm_num) rfl).2 0
  rw [h]
  simp only [Option.some.injEq]
  norm_num [List.filter]
  ring

/-- C6: with `log_means` enabled on a not-all-zero input, `_fast_cor_binned`
first aggregates the raw values without log transform, then log-transforms
the aggregated per-group means (not the raw samples) using pseudo-count `p`,
and correlates the transformed mean vector with the reference values;
moreover `p = 0` when all means are non-zero, and `p` is the minimum over the
non-zero means divided by 10 when at least one mean is zero. -/
theorem fast_cor_binned_two_stage (corFn : (Fin G → α) → (Fin G → α) → α)
    (lg : α → α) (v : ValVec α) (grp : ℕ → Fin G) (bins : Fin G → α)
    (c c₁ : Caches α G) (p : α)
    (hnz : ¬ v.allZero)
    (h1 : groupby_mean v grp c lg false = some c₁)
    (hp : meanPcount c₁.mean_cache = some p) :
    fast_cor_binned corFn lg v grp bins c true = some
        ({ cor := some (corFn (fun g => lg (c₁.mean_cache g + p)) bins)
           n_bins_obs := (Finset.univ.filter fun g => c₁.prev_cache g ≠ 0).card
           prev := ∑ g, c₁.prev_cache g },
         { c₁ with mean_cache := fun g => lg (c₁.mean_cache g + p) })
      ∧ ((∀ g, c₁.mean_cache g ≠ 0) → p = 0)
      ∧ ∀ hs : (Finset.univ.filter fun g => c₁.mean_cache g ≠ 0).Nonempty,
          (∃ g, c₁.mean_cache g = 0) →
            p = (Finset.univ.filter fun g => c₁.mean_cache g ≠ 0).inf' hs
                  c₁.mean_cache / 10 := by
  refine ⟨fast_cor_binned_log_eq corFn lg v grp bins c c₁ p hnz h1 hp, ?_, ?_⟩
  · intro hall
    unfold meanPcount at hp
    rw [if_neg (by push_neg; exact hall)] at hp
    exact (Option.some.inj hp).symm
  · intro hs hz
    unfold meanPcount at hp
    rw [if_pos hz, dif_pos hs] at hp
    exact (Option.some.inj hp).symm

/-- Witness for C6 at the sparse vector `[(0, 2)]`, one group of size 1: the
raw mean is `2`, all means are non-zero so `p = 0`, and the returned
correlation is the black-box correlation of the transformed means. -/
theorem fast_cor_binned_two_stage_witness :
    fast_cor_binned (fun _ _ => (7 : ℚ)) id (ValVec.sparse [((0 : ℕ), (2 : ℚ))])
        (fun _ => (0 : Fin 1)) (fun _ => 5)
        ⟨fun _ => 0, fun _ => 0, fun _ => 1, fun _ => 0⟩ true
      = some ({ cor := some 7, n_bins_obs := 1, prev := 1 },
          ⟨fun _ => 2, fun _ => 2, fun _ => 1, fun _ => 1⟩) := by
  have h1 : groupby_mean (ValVec.sparse [((0 : ℕ), (2 : ℚ))]) (fun _ => (0 : Fin 1))
      (⟨fun _ => 0, fun _ => 0, fun _ => 1, fun _ => 0⟩ : Caches ℚ 1) id false
      = some ⟨fun _ => 2, fun _ => 2, fun _ => 1, fun _ => 1⟩ := by
    rw [groupby_mean_nonlog_eq]
    apply congrArg some
    apply Caches.ext <;> funext g <;> obtain rfl := Fin.eq_zero g <;>
      norm_num [ValVec.pairs, List.filter]
  have h := (fast_cor_binned_two_stage (fun _ _ => (7 : ℚ)) id
    (ValVec.sparse [((0 : ℕ), (2 : ℚ))]) (fun _ => (0 : Fin 1)) (fun _ => 5)
    ⟨fun _ => 0, fun _ => 0, fun _ => 1, fun _ => 0⟩
    ⟨fun _ => 2, fun _ => 2, fun _ => 1, fun _ => 1⟩ 0
    (by norm_num [ValVec.allZero]) h1 (by simp [meanPcount])).1
  rw [h]
  apply congrArg some
  refine Prod.ext ?_ ?_
  · refine CorResult.ext ?_ ?_ ?_
    · rfl
    · decide
    · decide
  · apply Caches.ext <;> funext g <;> obtain rfl := Fin.eq_zero g <;> norm_num

/-- C7 fails as stated: for the dense, not-all-zero vector `[1, 0]` in one
group of size 2, `_fast_cor_binned` returns `prev = 2` — the total number of
observations — although the vector has exactly one non-zero observation. -/
theorem fast_cor_prevalence_counterexample :
    ¬ ValVec.allZero (ValVec.dense [(1 : ℚ), 0])
      ∧ ([(1 : ℚ), 0].filter fun x => decide (x ≠ 0)).length = 1
      ∧ (fast_cor_binned (fun _ _ => (0 : ℚ)) id (ValVec.dense [(1 : ℚ), 0])
          (fun _ => (0 : Fin 1)) (fun _ => 0)
          ⟨fun _ => 0, fun _ => 0, fun _ => 2, fun _ => 0⟩ false).map
          (fun rc => rc.1.prev)
        ≠ some 1 := by
  have h1 : groupby_mean (ValVec.dense [(1 : ℚ), 0]) (fun _ => (0 : Fin 1))
      (⟨fun _ => 0, fun _ => 0, fun _ => 2, fun _ => 0⟩ : Caches ℚ 1) id false
      = some ⟨fun _ => 1 / 2, fun _ => 1, fun _ => 2, fun _ => 2⟩ := by
    rw [groupby_mean_nonlog_eq]
    apply congrArg some
    apply Caches.ext <;> funext g <;> obtain rfl := Fin.eq_zero g <;>
      norm_num [ValVec.pairs, List.enum, List.enumFrom, List.filter]
  refine ⟨by norm_num [ValVec.allZero], by norm_num [List.filter], ?_⟩
  rw [fast_cor_binned_nonlog_eq (fun _ _ => (0 : ℚ)) id _ _ (fun _ => 0) _ _
    (by norm_num [ValVec.allZero]) h1]
  decide

/-- C7 (amended): for a not-all-zero input, the prevalence field equals the
sum over groups of the per-group observed counts, which is the number of
entries the aggregation pass iterates: the number of stored (non-zero)
entries for a sparse input, but the total number of samples (zeros included)
for a dense input. -/
theorem fast_cor_binned_prevalence (corFn : (Fin G → α) → (Fin G → α) → α)
    (lg : α → α) (v : ValVec α) (grp : ℕ → Fin G) (bins : Fin G → α)
    (c : Caches α G) (lm : Bool) (r : CorResult α) (c' : Caches α G)
    (hnz : ¬ v.allZero)
    (h : fast_cor_binned corFn lg v grp bins c lm = some (r, c')) :
    r.prev = v.numStored := by
  set R : Caches α G :=
    { mean_cache := fun g =>
        ((v.pairs.filter fun e => decide (grp e.1 = g)).map Prod.snd).sum
          / (c.group_count_cache g : α)
      sum_cache := fun g =>
        ((v.pairs.filter fun e => decide (grp e.1 = g)).map Prod.snd).sum
      group_count_cache := c.group_count_cache
      prev_cache := fun g =>
        (v.pairs.filter fun e => decide (grp e.1 = g)).length } with hR
  have h1 : groupby_mean v grp c lg false = some R := groupby_mean_nonlog_eq v grp c lg
  have hprev : ∑ g, R.prev_cache g = v.numStored :=
    (length_filter_groups grp v.pairs).trans (valvec_pairs_length v)
  cases lm with
  | false =>
      rw [fast_cor_binned_nonlog_eq corFn lg v grp bins c R hnz h1] at h
      obtain ⟨hr, -⟩ := Prod.mk.inj (Option.some.inj h)
      rw [← hr]
      exact hprev
  | true =>
      cases hpc : meanPcount R.mean_cache with
      | none =>
          rw [fast_cor_binned_log_fail corFn lg v grp bins c R hnz h1 hpc] at h
          exact absurd h (by simp)
      | some p =>
          rw [fast_cor_binned_log_eq corFn lg v grp bins c R p hnz h1 hpc] at h
          obtain ⟨hr, -⟩ := Prod.mk.inj (Option.some.inj h)
          rw [← hr]
          exact hprev

/-- Witness for C7 (amended) at the sparse vector `[(0, 2)]`: one stored
non-zero entry, and the returned prevalence is 1. -/
theorem fast_cor_binned_prevalence_witness :
    ValVec.numStored (ValVec.sparse [((0 : ℕ), (2 : ℚ))]) = 1
      ∧ (fast_cor_binned (fun _ _ => (0 : ℚ)) id (ValVec.sparse [((0 : ℕ), (2 : ℚ))])
          (fun _ => (0 : Fin 1)) (fun _ => 0)
          ⟨fun _ => 0, fun _ => 0, fun _ => 1, fun _ => 0⟩ false).map
          (fun rc => rc.1.prev) = some 1 := by
  have h1 : groupby_mean (ValVec.sparse [((0 : ℕ), (2 : ℚ))]) (fun _ => (0 : Fin 1))
      (⟨fun _ => 0, fun _ => 0, fun _ => 1, fun _ => 0⟩ : Caches ℚ 1) id false
      = some ⟨fun _ => 2, fun _ => 2, fun _ => 1, fun _ => 1⟩ := by
    rw [groupby_mean_nonlog_eq]
    apply congrArg some
    apply Caches.ext <;> funext g <;> obtain rfl := Fin.eq_zero g <;>
      norm_num [ValVec.pairs, List.filter]
  have hfc := fast_cor_binned_nonlog_eq (fun _ _ => (0 : ℚ)) id
    (ValVec.sparse [((0 : ℕ), (2 : ℚ))]) (fun _ => (0 : Fin 1)) (fun _ => 0)
    (⟨fun _ => 0, fun _ => 0, fun _ => 1, fun _ => 0⟩ : Caches ℚ 1)
    ⟨fun _ => 2, fun _ => 2, fun _ => 1, fun _ => 1⟩
    (by norm_num [ValVec.allZero]) h1
  have hp := fast_cor_binned_prevalence (fun _ _ => (0 : ℚ)) id
    (ValVec.sparse [((0 : ℕ), (2 : ℚ))]) (fun _ => (0 : Fin 1)) (fun _ => 0)
    (⟨fun _ => 0, fun _ => 0, fun _ => 1, fun _ => 0⟩ : Caches ℚ 1) false _ _
    (by norm_num [ValVec.allZero]) hfc
  refine ⟨rfl, ?_⟩
  rw [hfc]
  simp only [Option.map_some']
  exact congrArg some hp

lemma compute_cors_filter (corFn : (Fin G → α) → (Fin G → α) → α) (lg : α → α)
    (otu_cols : List (ℕ × ValVec α)) (n_samp : ℕ) (grp : ℕ → Fin G)
    (bins_srt : Fin G → α) (prev_min f : ℤ) (keep rm : List (CorRow α))
    (hres : compute_latitudinal_abundance_cors corFn lg otu_cols n_samp grp
      bins_srt prev_min f = some (keep, rm)) :
    ∃ rows : List (CorRow α),
      keep = rows.filter
          (fun r => ! decide (unreliableRow prev_min (n_bins_obs_min G f) r))
        ∧ rm = rows.filter
            (fun r => decide (unreliableRow prev_min (n_bins_obs_min G f) r)) := by
  unfold compute_latitudinal_abundance_cors at hres
  obtain ⟨rc, hrc, heq⟩ := Option.map_eq_some'.mp hres
  have heq' :
      (rc.1.filter
          (fun r => ! decide (unreliableRow prev_min (n_bins_obs_min G f) r)),
        rc.1.filter
          (fun r => decide (unreliableRow prev_min (n_bins_obs_min G f) r)))
        = (keep, rm) := heq
  obtain ⟨hk, hr⟩ := Prod.mk.inj heq'
  exact ⟨rc.1, hk.symm, hr.symm⟩

/-- C9 (amended): with a factor `f ≠ -1`, the minimum-observed-bins threshold
is `div(n_bins, f)` with truncation toward zero (Julia `div`), which equals
`floor(n_bins / f)` whenever `f ≥ 1`; every row of the main table passes both
reliability filters, every row of the excluded table fails at least one, and
the two tables are exactly the mask-split of the computed feature rows, so a
feature with fewer observed bins than the threshold is placed in the excluded
table and not in the main table. -/
theorem latitudinal_threshold_filter (corFn : (Fin G → α) → (Fin G → α) → α)
    (lg : α → α) (otu_cols : List (ℕ × ValVec α)) (n_samp : ℕ)
    (grp : ℕ → Fin G) (bins_srt : Fin G → α) (prev_min f : ℤ)
    (keep rm : List (CorRow α))
    (hf : f ≠ -1)
    (hres : compute_latitudinal_abundance_cors corFn lg otu_cols n_samp grp
      bins_srt prev_min f = some (keep, rm)) :
    n_bins_obs_min G f = Int.tdiv (G : ℤ) f
      ∧ (1 ≤ f → n_bins_obs_min G f = Int.fdiv (G : ℤ) f)
      ∧ (∀ r ∈ keep,
          ¬ ((r.prev : ℤ) < prev_min ∨ (r.n_bins_obs : ℤ) < n_bins_obs_min G f))
      ∧ (∀ r ∈ rm,
          (r.prev : ℤ) < prev_min ∨ (r.n_bins_obs : ℤ) < n_bins_obs_min G f)
      ∧ ∃ rows : List (CorRow α),
          keep = rows.filter
              (fun r => ! decide (unreliableRow prev_min (n_bins_obs_min G f) r))
            ∧ rm = rows.filter
                (fun r => decide (unreliableRow prev_min (n_bins_obs_min G f) r)) := by
  obtain ⟨rows, hk, hr⟩ := compute_cors_filter corFn lg otu_cols n_samp grp
    bins_srt prev_min f keep rm hres
  have hth : n_bins_obs_min G f = Int.tdiv (G : ℤ) f := by
    unfold n_bins_obs_min
    rw [if_pos hf]
  refine ⟨hth, ?_, ?_, ?_, ⟨rows, hk, hr⟩⟩
  · intro hf1
    rw [hth, Int.tdiv_eq_ediv (Int.natCast_nonneg G) (by linarith),
      Int.fdiv_eq_ediv _ (by linarith)]
  · intro r hrk
    rw [hk] at hrk
    have h2 := (List.mem_filter.mp hrk).2
    rw [Bool.not_eq_true', decide_eq_false_iff_not] at h2
    exact h2
  · intro r hrm
    rw [hr] at hrm
    have h2 := (List.mem_filter.mp hrm).2
    rw [decide_eq_true_eq] at h2
    exact h2

/-- C9 fails as stated for negative factors other than `-1`: with 3 bins and
factor `-2`, the code's threshold is `div(3, -2) = -1` (Julia `div` truncates
toward zero), not `floor(3 / -2) = -2`. -/
theorem latitudinal_threshold_counterexample :
    ((-2 : ℤ) ≠ -1)
      ∧ n_bins_obs_min 3 (-2) = -1
      ∧ Int.fdiv (3 : ℤ) (-2) = -2
      ∧ n_bins_obs_min 3 (-2) ≠ Int.fdiv (3 : ℤ) (-2) := by decide

/-- Witness for C9 (amended): one all-zero feature with 1 bin and factor 1
(threshold `div(1,1) = 1`): its `n_bins_obs = 0` falls below the threshold
and the feature lands in the excluded table. -/
theorem latitudinal_threshold_filter_witness :
    n_bins_obs_min 1 1 = Int.tdiv (1 : ℤ) 1
      ∧ n_bins_obs_min 1 1 = Int.fdiv (1 : ℤ) 1
      ∧ (((⟨5, none, 0, 0, 1⟩ : CorRow ℚ).prev : ℤ) < 0
          ∨ ((⟨5, none, 0, 0, 1⟩ : CorRow ℚ).n_bins_obs : ℤ) < n_bins_obs_min 1 1) := by
  have hrun : compute_latitudinal_abundance_cors (fun _ _ => (0 : ℚ)) id
      [(5, ValVec.dense [(0 : ℚ)])] 1 (fun _ => (0 : Fin 1)) (fun _ => 0) 0 1
      = some ([], [⟨5, none, 0, 0, 1⟩]) := by decide
  have h := latitudinal_threshold_filter (fun _ _ => (0 : ℚ)) id
    [(5, ValVec.dense [(0 : ℚ)])] 1 (fun _ => (0 : Fin 1)) (fun _ => 0) 0 1
    [] [⟨5, none, 0, 0, 1⟩] (by decide) hrun
  exact ⟨h.1, h.2.1 (by norm_num), h.2.2.2.1 _ (List.mem_singleton_self _)⟩

/-- C10: with the default sentinel `bins_obs_min_factor = -1` the
minimum-bins threshold is 0, so no feature is ever excluded for low bin
coverage (an observed-bins count is never below 0); a row lands in the
excluded table exactly when its prevalence is below `prev_min`. -/
theorem latitudinal_default_no_bins_filter (corFn : (Fin G → α) → (Fin G → α) → α)
    (lg : α → α) (otu_cols : List (ℕ × ValVec α)) (n_samp : ℕ)
    (grp : ℕ → Fin G) (bins_srt : Fin G → α) (prev_min : ℤ)
    (keep rm : List (CorRow α))
    (hres : compute_latitudinal_abundance_cors corFn lg otu_cols n_samp grp
      bins_srt prev_min (-1) = some (keep, rm)) :
    n_bins_obs_min G (-1) = 0
      ∧ (∀ r ∈ rm, (r.prev : ℤ) < prev_min)
      ∧ (∀ r ∈ keep, ¬ ((r.prev : ℤ) < prev_min)) := by
  have hth : n_bins_obs_min G (-1) = 0 := by
    unfold n_bins_obs_min
    simp
  obtain ⟨rows, hk, hr⟩ := compute_cors_filter corFn lg otu_cols n_samp grp
    bins_srt prev_min (-1) keep rm hres
  refine ⟨hth, ?_, ?_⟩
  · intro r hrm
    rw [hr] at hrm
    have h2 := (List.mem_filter.mp hrm).2
    rw [decide_eq_true_eq] at h2
    unfold unreliableRow at h2
    rcases h2 with h2 | h2
    · exact h2
    · rw [hth] at h2
      exact absurd h2 (not_lt.mpr (Int.natCast_nonneg _))
  · intro r hrk
    rw [hk] at hrk
    have h2 := (List.mem_filter.mp hrk).2
    rw [Bool.not_eq_true', decide_eq_false_iff_not] at h2
    exact fun hcontra => h2 (Or.inl hcontra)

/-- Witness for C10: one all-zero feature with `prev_min = 1` and factor `-1`:
the threshold is 0 and the feature is excluded by prevalence alone. -/
theorem latitudinal_default_no_bins_filter_witness :
    n_bins_obs_min 1 (-1) = 0
      ∧ (((⟨5, none, 0, 0, 1⟩ : CorRow ℚ).prev : ℤ) < 1) := by
  have hrun : compute_latitudinal_abundance_cors (fun _ _ => (0 : ℚ)) id
      [(5, ValVec.dense [(0 : ℚ)])] 1 (fun _ => (0 : Fin 1)) (fun _ => 0) 1 (-1)
      = some ([], [⟨5, none, 0, 0, 1⟩]) := by decide
  have h := latitudinal_default_no_bins_filter (fun _ _ => (0 : ℚ)) id
    [(5, ValVec.dense [(0 : ℚ)])] 1 (fun _ => (0 : Fin 1)) (fun _ => 0) 1
    [] [⟨5, none, 0, 0, 1⟩] hrun
  exact ⟨h.1, h.2.1 _ (List.mem_singleton_self _)⟩

end MicrobeAtlas
